import Mathlib

/-!
Verification of the feed-parsing and aggregation pipeline in
`src/osint/scripts/threatQ.py` (functions `get_date`, `get_timestamp`,
`create_data_frame`, `clean_data`, `parse_and_flatten`, `summarize`).

Python strings are modelled as `List Char`; pandas/NumPy NaN cells are
modelled as `none : Option Str`; Python exceptions are modelled by the
`PyError` type together with `Except` results.
-/

/-- A Python string, modelled as its list of characters. -/
abbrev Str := List Char

/-- Coerce a Lean string literal to the model type. -/
def chars (s : String) : Str := s.data

/-- The empty Python string. -/
def strEmpty : Str := []

/-- The Python exceptions the modelled code can raise:
`ValueError` (from `list.remove` and from the pandas column/arity check),
`IndexError` (from `logs_feed[loc]`), and `AttributeError`
(from calling `.split` on a non-string / from `.columns` on a Series). -/
inductive PyError where
  | valueError
  | indexError
  | attributeError
deriving DecidableEq

/-- Python `str.split(sep)` for a one-character separator `c`:
splits at every occurrence of `c`; the empty string yields `[""]`. -/
def splitChar (c : Char) : List Char → List (List Char)
  | [] => [[]]
  | x :: xs =>
    if x = c then [] :: splitChar c xs
    else
      match splitChar c xs with
      | [] => [[x]]
      | y :: ys => (x :: y) :: ys

/-- Python `list.remove(x)`: deletes the first occurrence of `x`,
or raises `ValueError` (modelled as `none`) when `x` is absent. -/
def pyRemove (x : Str) : List Str → Option (List Str)
  | [] => none
  | y :: ys => if y = x then some ys else (pyRemove x ys).map (y :: ·)

/-- One row of the dataframe built by `create_data_frame`: the six schema
columns, each cell either a string or NaN (`none`, from ragged padding). -/
structure Row where
  domain : Option Str
  domain_ip : Option Str
  domain_registrar : Option Str
  domain_registrar_ip : Option Str
  malware : Option Str
  url_feed : Option Str
deriving DecidableEq

/-- The six schema column names of the dataframe. -/
inductive FieldName where
  | domain
  | domain_ip
  | domain_registrar
  | domain_registrar_ip
  | malware
  | url_feed
deriving DecidableEq

/-- Cell lookup of a schema column in a row. -/
def getCol (r : Row) : FieldName → Option Str
  | .domain => r.domain
  | .domain_ip => r.domain_ip
  | .domain_registrar => r.domain_registrar
  | .domain_registrar_ip => r.domain_registrar_ip
  | .malware => r.malware
  | .url_feed => r.url_feed

/-- Build a row from the comma-split parts of one line, as the pandas
`DataFrame(list-of-lists, columns=...)` constructor does: cell `i` is
part `i` when present, NaN when the line had fewer parts. -/
def mkRow (parts : List Str) : Row where
  domain := parts.get? 0
  domain_ip := parts.get? 1
  domain_registrar := parts.get? 2
  domain_registrar_ip := parts.get? 3
  malware := parts.get? 4
  url_feed := parts.get? 5

/-- The largest comma-split arity over all data lines; pandas infers this
as the column count of the list-of-lists data. -/
def maxArity (rows : List (List Str)) : Nat :=
  (rows.map List.length).foldr max 0

/-- Model of `create_data_frame(logs_feed, drop_elements)`:
drop the first `drop_elements` lines, then the `remove` of the empty string
(ValueError when no empty line is present), then split each remaining
line on commas and build the six-column dataframe.  pandas raises
ValueError when the inferred column count (the maximum split arity)
differs from the six supplied column names; rows with fewer parts than
six are padded with NaN cells. -/
def create_data_frame (logs_feed : List Str) (drop_elements : Nat) :
    Except PyError (List Row) :=
  match pyRemove strEmpty (logs_feed.drop drop_elements) with
  | none => .error .valueError
  | some rest =>
    let rows := rest.map (splitChar ',')
    if rows.isEmpty then .ok []
    else if maxArity rows = 6 then .ok (rows.map mkRow)
    else .error .valueError

deriving instance DecidableEq for Except

/-- The character class `\d` (ASCII digits, as matched on this feed). -/
def isDigitCh (c : Char) : Bool :=
  decide ('0' ≤ c) && decide (c ≤ '9')

/-- Greedy `\d+` at the start of `s`: the maximal digit run (which must be
nonempty) together with the remaining input. -/
def matchNum (s : List Char) : Option (List Char × List Char) :=
  if (s.takeWhile isDigitCh).isEmpty then none
  else some (s.takeWhile isDigitCh, s.drop (s.takeWhile isDigitCh).length)

/-- A literal one-character match at the start of the input. -/
def matchLitChar (c : Char) : List Char → Option (List Char)
  | [] => none
  | x :: xs => if x = c then some xs else none

/-- An anchored match of the pattern `\d+-\d+-\d+` (the `re.findall`
pattern of `get_date`) at the start of `s`: the matched text and the
remaining input.  Greedy `\d+` with backtracking coincides with the
maximal digit run here because the following literal is not a digit. -/
def matchDate (s : List Char) : Option (List Char × List Char) :=
  match matchNum s with
  | none => none
  | some (d1, s1) =>
    match matchLitChar '-' s1 with
    | none => none
    | some s2 =>
      match matchNum s2 with
      | none => none
      | some (d2, s3) =>
        match matchLitChar '-' s3 with
        | none => none
        | some s4 =>
          match matchNum s4 with
          | none => none
          | some (d3, s5) => some (d1 ++ '-' :: d2 ++ '-' :: d3, s5)

/-- An anchored match of the pattern `\d+:\d+` (the `re.findall` pattern
of `get_timestamp`) at the start of `s`. -/
def matchTime (s : List Char) : Option (List Char × List Char) :=
  match matchNum s with
  | none => none
  | some (d1, s1) =>
    match matchLitChar ':' s1 with
    | none => none
    | some s2 =>
      match matchNum s2 with
      | none => none
      | some (d2, s3) => some (d1 ++ ':' :: d2, s3)

theorem takeWhile_len_le {α : Type} (p : α → Bool) :
    ∀ s : List α, (s.takeWhile p).length ≤ s.length
  | [] => by simp
  | x :: xs => by
    rw [List.takeWhile_cons]
    split
    · simpa using takeWhile_len_le p xs
    · simp

theorem matchNum_lt {s d r} (h : matchNum s = some (d, r)) :
    r.length < s.length ∧ d ≠ [] := by
  unfold matchNum at h
  split at h
  · exact absurd h (by simp)
  · rename_i he
    have h' := Option.some.inj h
    have hd : s.takeWhile isDigitCh = d := congrArg Prod.fst h'
    have hr : s.drop (s.takeWhile isDigitCh).length = r := congrArg Prod.snd h'
    have hne : s.takeWhile isDigitCh ≠ [] := by
      intro hq
      rw [hq] at he
      simp at he
    constructor
    · have hlen : (s.takeWhile isDigitCh).length ≤ s.length :=
        takeWhile_len_le _ _
      have hpos : 0 < (s.takeWhile isDigitCh).length :=
        List.length_pos.mpr hne
      rw [← hr, List.length_drop]
      omega
    · rw [← hd]
      exact hne

theorem matchLitChar_lt {c s r} (h : matchLitChar c s = some r) :
    r.length + 1 = s.length := by
  cases s with
  | nil => simp [matchLitChar] at h
  | cons x xs =>
    unfold matchLitChar at h
    by_cases hx : x = c
    · simp [hx] at h
      simp [← h]
    · simp [hx] at h

theorem matchDate_lt {s t r} (h : matchDate s = some (t, r)) :
    r.length < s.length := by
  unfold matchDate at h
  split at h
  · exact absurd h (by simp)
  · rename_i d1 s1 h1
    split at h
    · exact absurd h (by simp)
    · rename_i s2 h2
      split at h
      · exact absurd h (by simp)
      · rename_i d2 s3 h3
        split at h
        · exact absurd h (by simp)
        · rename_i s4 h4
          split at h
          · exact absurd h (by simp)
          · rename_i d3 s5 h5
            have hr : s5 = r := congrArg Prod.snd (Option.some.inj h)
            subst hr
            have l1 := (matchNum_lt h1).1
            have l2 := matchLitChar_lt h2
            have l3 := (matchNum_lt h3).1
            have l4 := matchLitChar_lt h4
            have l5 := (matchNum_lt h5).1
            omega

theorem matchTime_lt {s t r} (h : matchTime s = some (t, r)) :
    r.length < s.length := by
  unfold matchTime at h
  split at h
  · exact absurd h (by simp)
  · rename_i d1 s1 h1
    split at h
    · exact absurd h (by simp)
    · rename_i s2 h2
      split at h
      · exact absurd h (by simp)
      · rename_i d2 s3 h3
        have hr : s3 = r := congrArg Prod.snd (Option.some.inj h)
        subst hr
        have l1 := (matchNum_lt h1).1
        have l2 := matchLitChar_lt h2
        have l3 := (matchNum_lt h3).1
        omega

/-- Model of `re.findall` for a pattern whose anchored matcher `m` always
consumes at least one character: scan left to right; at each position try
an anchored match; on success record the matched text and resume after
it, otherwise advance one character. -/
def reFindAll (m : List Char → Option (List Char × List Char))
    (hm : ∀ {s t r}, m s = some (t, r) → r.length < s.length)
    (s : List Char) : List (List Char) :=
  match hmt : m s with
  | some (t, r) => t :: reFindAll m hm r
  | none =>
    match hs : s with
    | [] => []
    | _ :: tl => reFindAll m hm tl
termination_by s.length
decreasing_by
  · exact hm hmt
  · simp [hs]

/-- Model of `get_date(logs_feed, date_loc)`: index into the feed lines
(`IndexError` when out of range), then the findall over the date pattern. -/
def get_date (logs_feed : List Str) (date_loc : Nat) :
    Except PyError (List Str) :=
  match logs_feed.get? date_loc with
  | none => .error .indexError
  | some line => .ok (reFindAll matchDate (fun h => matchDate_lt h) line)

/-- Model of `get_timestamp(logs_feed, timestamp_loc)`: index into the
feed lines, then the findall over the time pattern. -/
def get_timestamp (logs_feed : List Str) (timestamp_loc : Nat) :
    Except PyError (List Str) :=
  match logs_feed.get? timestamp_loc with
  | none => .error .indexError
  | some line => .ok (reFindAll matchTime (fun h => matchTime_lt h) line)

/-- The character class `[a-z]` of the malware pattern. -/
def isLowerAZ (c : Char) : Bool :=
  decide ('a' ≤ c) && decide (c ≤ 'z')

/-- The literal part of the malware pattern before the capture group. -/
def mifBefore : Str := chars "Master Indicator Feed for "

/-- The literal part of the malware pattern after the capture group. -/
def mifAfter : Str := chars " non-sinkholed domains"

/-- An anchored match of
`Master Indicator Feed for ([a-z]+) non-sinkholed domains` at the start
of `s`, returning the captured group.  Greedy `[a-z]+` with backtracking
coincides with the maximal lowercase run because the following literal
starts with a space. -/
def mifMatchAt (s : Str) : Option Str :=
  if mifBefore.isPrefixOf s then
    let rest := s.drop mifBefore.length
    let run := rest.takeWhile isLowerAZ
    if run.isEmpty then none
    else if mifAfter.isPrefixOf (rest.drop run.length) then some run
    else none
  else none

/-- The `re.search` over the malware pattern used by
the extract over the malware column: the capture group of the match at the
leftmost matching position, or `none` when the pattern matches nowhere. -/
def extractMalware : Str → Option Str
  | [] => mifMatchAt []
  | s@(_ :: tl) =>
    match mifMatchAt s with
    | some run => some run
    | none => extractMalware tl

/-- A cell of the `malware` column after `clean_data`: either the
captured malware-family name, or the integer `0` that
`.fillna(0)` places where the pattern did not match (also where the
original cell was NaN). -/
inductive MalwareCell where
  | fam (s : Str)
  | zero
deriving DecidableEq

/-- The `malware`-column transform of `clean_data`:
`str.extract(pattern).fillna(0)` applied to one cell. -/
def cleanMalwareCell (cell : Option Str) : MalwareCell :=
  match cell with
  | none => .zero
  | some s =>
    match extractMalware s with
    | some run => .fam run
    | none => .zero

/-- The values of one schema column across the table, or `none` when any
cell of that column is NaN. -/
def colVals (df : List Row) (f : FieldName) : Option (List Str) :=
  match df with
  | [] => some []
  | r :: rs =>
    match getCol r f, colVals rs f with
    | some v, some vs => some (v :: vs)
    | _, _ => none

/-- One row of the table produced by `clean_data`: the six original
columns (with `malware` transformed), plus the pipe-split parts of
`domain_registrar_ip` that the `join` spreads over the appended
`domain_registrar_ip_<i>` columns (part `i` of a row is the value of
column `domain_registrar_ip_<i>`, NaN when the row has fewer parts). -/
structure CleanRow where
  domain : Option Str
  domain_ip : Option Str
  domain_registrar : Option Str
  domain_registrar_ip : Option Str
  malware : MalwareCell
  url_feed : Option Str
  regIpParts : List Str
deriving DecidableEq

/-- Model of `clean_data(df)`: replace the `malware` column by the
pattern extraction with `fillna(0)`, split each `domain_registrar_ip`
cell on the pipe, and join the resulting indexed columns onto the frame.
`x.split('|')` raises `AttributeError` on a NaN (float) cell, and on an
empty frame the `apply` returns a Series whose missing `.columns`
attribute raises `AttributeError` as well. -/
def clean_data (df : List Row) : Except PyError (List CleanRow) :=
  if df.isEmpty then .error .attributeError
  else
    match colVals df FieldName.domain_registrar_ip with
    | none => .error .attributeError
    | some vals =>
      .ok (List.zipWith (fun r v =>
        { domain := r.domain
          domain_ip := r.domain_ip
          domain_registrar := r.domain_registrar
          domain_registrar_ip := r.domain_registrar_ip
          malware := cleanMalwareCell r.malware
          url_feed := r.url_feed
          regIpParts := splitChar '|' v }) df vals)

/-- Model of `parse_and_flatten(df, field_name)`: list the column's
values (`x.split('|')` raises `AttributeError` on a NaN cell), split
each value on the pipe, and flatten the list of lists in order. -/
def parse_and_flatten (df : List Row) (field_name : FieldName) :
    Except PyError (List Str) :=
  match colVals df field_name with
  | none => .error .attributeError
  | some vals => .ok ((vals.map (splitChar '|')).flatten)

/-- The distinct elements of a list in order of first appearance —
the key order of a Python `Counter` / insertion-ordered `dict`. -/
def firstSeen : List Str → List Str
  | [] => []
  | x :: xs => x :: (firstSeen xs).filter (fun y => decide (y ≠ x))

/-- Model of `summarize(lst, threshold)`: count occurrences with
`Counter`, keep the pairs whose count is strictly greater than the
threshold, and present them as a key-to-count mapping (modelled as the
association list underlying the returned `pd.Series`, in `Counter`
insertion order). -/
def summarize (lst : List Str) (threshold : Int) : List (Str × Nat) :=
  (firstSeen lst).filterMap (fun k =>
    if threshold < (lst.count k : Int) then some (k, lst.count k) else none)

theorem splitChar_length (c : Char) : ∀ s : List Char,
    (splitChar c s).length = s.count c + 1
  | [] => by simp [splitChar]
  | x :: xs => by
    have ih := splitChar_length c xs
    by_cases hx : x = c
    · subst hx
      simp [splitChar, ih, List.count_cons]
    · simp only [splitChar, if_neg hx]
      cases hsp : splitChar c xs with
      | nil => rw [hsp] at ih; simp at ih
      | cons y ys =>
        rw [hsp] at ih
        simp only [List.length_cons] at ih ⊢
        have hcx : ¬(c = x) := fun he => hx he.symm
        simp [List.count_cons, hcx]
        omega

theorem splitChar_of_count_zero (c : Char) : ∀ s : List Char,
    s.count c = 0 → splitChar c s = [s]
  | [] => by intro _; rfl
  | x :: xs => by
    intro h
    rw [List.count_cons] at h
    have hx : ¬(x = c) := by
      intro he
      subst he
      simp at h
    have hxs : xs.count c = 0 := by omega
    simp only [splitChar, if_neg hx, splitChar_of_count_zero c xs hxs]

theorem pyRemove_of_not_mem {x : Str} :
    ∀ {l : List Str}, x ∉ l → pyRemove x l = none
  | [], _ => rfl
  | y :: ys, h => by
    have hy : ¬(y = x) := fun he => h (by simp [he])
    have hys : x ∉ ys := fun hm => h (by simp [hm])
    simp [pyRemove, hy, pyRemove_of_not_mem hys]

theorem pyRemove_first {x : Str} :
    ∀ (l1 l2 : List Str), x ∉ l1 →
      pyRemove x (l1 ++ x :: l2) = some (l1 ++ l2)
  | [], l2, _ => by simp [pyRemove]
  | y :: l1, l2, h => by
    have hy : ¬(y = x) := fun he => h (by simp [he])
    have h1 : x ∉ l1 := fun hm => h (by simp [hm])
    simp [pyRemove, hy, pyRemove_first l1 l2 h1]

theorem colVals_length {f : FieldName} :
    ∀ {df : List Row} {vals : List Str},
      colVals df f = some vals → vals.length = df.length
  | [], vals, h => by
    simp only [colVals] at h
    simp [← Option.some.inj h]
  | r :: rs, vals, h => by
    simp only [colVals] at h
    split at h
    · rename_i v vs hv hvs
      have : vs.length = rs.length := colVals_length hvs
      simp [← Option.some.inj h, this]
    · exact absurd h (by simp)

theorem colVals_get {f : FieldName} :
    ∀ {df : List Row} {vals : List Str}, colVals df f = some vals →
      ∀ j (hj : j < df.length) (hj' : j < vals.length),
        getCol (df.get ⟨j, hj⟩) f = some (vals.get ⟨j, hj'⟩)
  | [], vals, h => by
    intro j hj hj'
    simp at hj
  | r :: rs, vals, h => by
    simp only [colVals] at h
    split at h
    · rename_i v vs hv hvs
      intro j hj hj'
      have hvals : vals = v :: vs := (Option.some.inj h).symm
      subst hvals
      cases j with
      | zero => simpa using hv
      | succ n =>
        have hn : n < rs.length := by simpa using hj
        have hn' : n < vs.length := by simpa using hj'
        simpa using colVals_get hvs n hn hn'
    · exact absurd h (by simp)

section ReFindAllLemmas

variable {m : List Char → Option (List Char × List Char)}
variable {hm : ∀ {s t r}, m s = some (t, r) → r.length < s.length}

theorem matcher_nil_none (hm : ∀ {s t r}, m s = some (t, r) → r.length < s.length) :
    m [] = none := by
  cases h : m [] with
  | none => rfl
  | some p =>
    obtain ⟨t, r⟩ := p
    exact absurd (hm h) (by simp)

theorem reFindAll_eq_some {s t r} (h : m s = some (t, r)) :
    reFindAll m hm s = t :: reFindAll m hm r := by
  rw [reFindAll]
  split
  · rename_i t' r' hmt
    rw [h] at hmt
    have h1 : t = t' := congrArg Prod.fst (Option.some.inj hmt)
    have h2 : r = r' := congrArg Prod.snd (Option.some.inj hmt)
    rw [← h1, ← h2]
  · rename_i hmt
    rw [h] at hmt
    cases hmt

theorem reFindAll_nil : reFindAll m hm [] = [] := by
  rw [reFindAll]
  split
  · rename_i t r hmt
    rw [matcher_nil_none hm] at hmt
    cases hmt
  · rfl

theorem reFindAll_cons_none {x : Char} {tl : List Char}
    (h : m (x :: tl) = none) :
    reFindAll m hm (x :: tl) = reFindAll m hm tl := by
  rw [reFindAll]
  split
  · rename_i t r hmt
    rw [h] at hmt
    cases hmt
  · rfl

theorem reFindAll_eq_nil_iff :
    ∀ (n : Nat) (s : List Char), s.length ≤ n →
      (reFindAll m hm s = [] ↔ ∀ i, m (s.drop i) = none)
  | 0, s, hlen => by
    have hs : s = [] := List.length_eq_zero.mp (Nat.le_zero.mp hlen)
    subst hs
    refine iff_of_true reFindAll_nil fun i => ?_
    rw [List.drop_nil]
    exact matcher_nil_none hm
  | n + 1, s, hlen => by
    cases hm0 : m s with
    | some p =>
      obtain ⟨t, r⟩ := p
      refine iff_of_false (by rw [reFindAll_eq_some hm0]; simp) fun hall => ?_
      have := hall 0
      rw [List.drop_zero, hm0] at this
      cases this
    | none =>
      cases s with
      | nil =>
        refine iff_of_true reFindAll_nil fun i => ?_
        rw [List.drop_nil]
        exact hm0
      | cons x tl =>
        rw [reFindAll_cons_none hm0]
        have htl : tl.length ≤ n := by
          have : tl.length < n + 1 := Nat.lt_of_lt_of_le (by simp) hlen
          omega
        have ih := reFindAll_eq_nil_iff n tl htl
        refine ih.trans ⟨fun h i => ?_, fun h i => ?_⟩
        · cases i with
          | zero => simpa using hm0
          | succ j => simpa using h j
        · simpa using h (i + 1)

theorem reFindAll_head :
    ∀ (n : Nat) (s : List Char), s.length ≤ n → ∀ (i : Nat) (t r : List Char),
      (∀ j, j < i → m (s.drop j) = none) → m (s.drop i) = some (t, r) →
      (reFindAll m hm s).head? = some t
  | 0, s, hlen, i, t, r, _, hmatch => by
    have hs : s = [] := List.length_eq_zero.mp (Nat.le_zero.mp hlen)
    subst hs
    rw [List.drop_nil, matcher_nil_none hm] at hmatch
    cases hmatch
  | n + 1, s, hlen, i, t, r, hbelow, hmatch => by
    cases hm0 : m s with
    | some p =>
      obtain ⟨t0, r0⟩ := p
      rw [reFindAll_eq_some hm0]
      cases i with
      | zero =>
        rw [List.drop_zero, hm0] at hmatch
        have h1 : t0 = t := congrArg Prod.fst (Option.some.inj hmatch)
        simp [h1]
      | succ k =>
        have := hbelow 0 (Nat.succ_pos k)
        rw [List.drop_zero, hm0] at this
        cases this
    | none =>
      cases i with
      | zero =>
        rw [List.drop_zero, hm0] at hmatch
        cases hmatch
      | succ k =>
        cases s with
        | nil =>
          rw [List.drop_nil, matcher_nil_none hm] at hmatch
          cases hmatch
        | cons x tl =>
          rw [reFindAll_cons_none hm0]
          refine reFindAll_head n tl ?_ k t r (fun j hj => ?_) (by simpa using hmatch)
          · have : tl.length < n + 1 := Nat.lt_of_lt_of_le (by simp) hlen
            omega
          · simpa using hbelow (j + 1) (Nat.succ_lt_succ hj)

end ReFindAllLemmas

theorem mem_firstSeen {k : Str} : ∀ {l : List Str}, k ∈ firstSeen l ↔ k ∈ l
  | [] => by simp [firstSeen]
  | x :: xs => by
    simp only [firstSeen, List.mem_cons, List.mem_filter, decide_eq_true_eq]
    constructor
    · rintro (h | ⟨h1, _⟩)
      · left; exact h
      · right; exact mem_firstSeen.mp h1
    · rintro (h | h)
      · left; exact h
      · by_cases hk : k = x
        · left; exact hk
        · right; exact ⟨mem_firstSeen.mpr h, hk⟩

theorem nodup_firstSeen : ∀ l : List Str, (firstSeen l).Nodup
  | [] => by simp [firstSeen]
  | x :: xs => by
    simp only [firstSeen, List.nodup_cons]
    refine ⟨fun hx => ?_, (nodup_firstSeen xs).filter _⟩
    have := List.of_mem_filter hx
    simp at this

theorem mem_summarize {lst : List Str} {T : Int} {k : Str} {c : Nat} :
    (k, c) ∈ summarize lst T ↔
      k ∈ lst ∧ T < (lst.count k : Int) ∧ c = lst.count k := by
  unfold summarize
  rw [List.mem_filterMap]
  constructor
  · rintro ⟨a, ha, hfa⟩
    by_cases hT : T < (lst.count a : Int)
    · rw [if_pos hT] at hfa
      have h1 : a = k := congrArg Prod.fst (Option.some.inj hfa)
      have h2 : lst.count a = c := congrArg Prod.snd (Option.some.inj hfa)
      subst h1
      exact ⟨mem_firstSeen.mp ha, hT, h2.symm⟩
    · rw [if_neg hT] at hfa
      cases hfa
  · rintro ⟨hk, hT, hc⟩
    refine ⟨k, mem_firstSeen.mpr hk, ?_⟩
    rw [if_pos hT, hc]

theorem map_fst_filterMap_ite {P : Str → Prop} [DecidablePred P]
    {g : Str → Nat} :
    ∀ l : List Str,
      (l.filterMap fun k => if P k then some (k, g k) else none).map Prod.fst
        = l.filter fun k => decide (P k)
  | [] => rfl
  | x :: xs => by
    by_cases hx : P x
    · simp [List.filterMap_cons, hx, map_fst_filterMap_ite xs]
    · simp [List.filterMap_cons, hx, map_fst_filterMap_ite xs]

theorem summarize_keys (lst : List Str) (T : Int) :
    (summarize lst T).map Prod.fst =
      (firstSeen lst).filter fun k => decide (T < (lst.count k : Int)) := by
  unfold summarize
  exact map_fst_filterMap_ite _

/-- C1, counterexample: on the one-line feed `["a,b,c,d,e,f"]` (no empty
final element anywhere), the claim says the removal is a no-op that does
not raise, so `create_data_frame` would succeed; the code's
the `remove` of the empty string raises `ValueError` instead. -/
theorem c1_counterexample :
    create_data_frame [chars "a,b,c,d,e,f"] 0 = .error .valueError ∧
    pyRemove strEmpty [chars "a,b,c,d,e,f"] = none := by
  decide

/-- C1 (amended): during header stripping, `create_data_frame` removes
the first occurrence of the empty string from the data lines — which is
the trailing empty line exactly when that is the only empty line — and
when no empty string is present anywhere in the data lines it raises
`ValueError` rather than being a no-op. -/
theorem create_data_frame_removes_first_empty (feed : List Str) (d : Nat) :
    (strEmpty ∉ feed.drop d → create_data_frame feed d = .error .valueError) ∧
    (∀ l1 l2, feed.drop d = l1 ++ strEmpty :: l2 → strEmpty ∉ l1 →
      pyRemove strEmpty (feed.drop d) = some (l1 ++ l2)) := by
  constructor
  · intro hnot
    unfold create_data_frame
    rw [pyRemove_of_not_mem hnot]
  · intro l1 l2 hsplit h1
    rw [hsplit]
    exact pyRemove_first l1 l2 h1

/-- C1, witness for the amended theorem: a feed with no empty line
errors, and the first (here also final and only) empty line is the one
removed. -/
theorem c1_witness :
    create_data_frame [chars "a,b,c,d,e,f"] 0 = .error .valueError ∧
    pyRemove strEmpty [chars "x", strEmpty] = some [chars "x"] :=
  ⟨(create_data_frame_removes_first_empty [chars "a,b,c,d,e,f"] 0).1 (by decide),
   (create_data_frame_removes_first_empty [chars "x", strEmpty] 0).2
     [chars "x"] [] (by decide) (by decide)⟩

/-- C2: `summarize` keeps exactly the distinct tokens of the list whose
occurrence count is strictly greater than the threshold, each mapped to
its exact count (with no duplicate keys), and with threshold `0` it
keeps every token that occurs at least once. -/
theorem summarize_exact (lst : List Str) (T : Int) (k : Str) :
    ((∃ c, (k, c) ∈ summarize lst T) ↔ k ∈ lst ∧ T < (lst.count k : Int)) ∧
    (∀ c, (k, c) ∈ summarize lst T → c = lst.count k) ∧
    ((summarize lst T).map Prod.fst).Nodup ∧
    (k ∈ lst ↔ ∃ c, (k, c) ∈ summarize lst 0) := by
  refine ⟨⟨fun ⟨c, hc⟩ => ?_, fun ⟨hk, hT⟩ => ?_⟩, fun c hc => ?_, ?_, ?_⟩
  · obtain ⟨h1, h2, _⟩ := mem_summarize.mp hc
    exact ⟨h1, h2⟩
  · exact ⟨lst.count k, mem_summarize.mpr ⟨hk, hT, rfl⟩⟩
  · exact (mem_summarize.mp hc).2.2
  · rw [summarize_keys]
    exact (nodup_firstSeen lst).filter _
  · constructor
    · intro hk
      refine ⟨lst.count k, mem_summarize.mpr ⟨hk, ?_, rfl⟩⟩
      exact_mod_cast List.count_pos_iff.mpr hk
    · rintro ⟨c, hc⟩
      exact (mem_summarize.mp hc).1

/-- C2, witness: on the token list `["a", "b", "a"]` with threshold 1,
the token "a" (count 2 > 1) is a key of the summary. -/
theorem c2_witness :
    chars "a" ∈ [chars "a", chars "b", chars "a"] ∧
    (∃ c, (chars "a", c) ∈ summarize [chars "a", chars "b", chars "a"] 1) :=
  ⟨by decide,
   (summarize_exact [chars "a", chars "b", chars "a"] 1 (chars "a")).1.mpr
     ⟨by decide, by decide⟩⟩

/-- C3: for every table and field whose cells are all strings, the
flattened token list of `parse_and_flatten` has length equal to the sum
over records of `1 +` the number of pipe characters in that record's
field value; a value with no pipe yields exactly the one-element split
of itself, and the empty value yields exactly one empty-string token. -/
theorem parse_and_flatten_length (df : List Row) (f : FieldName)
    (vals : List Str) (h : colVals df f = some vals) :
    ∃ out, parse_and_flatten df f = .ok out ∧
      out.length = (vals.map fun v => v.count '|' + 1).sum ∧
      (∀ v ∈ vals, (splitChar '|' v).length = v.count '|' + 1) ∧
      (∀ v ∈ vals, v.count '|' = 0 → splitChar '|' v = [v]) ∧
      splitChar '|' strEmpty = [strEmpty] := by
  refine ⟨(vals.map (splitChar '|')).flatten, ?_, ?_, ?_, ?_, by decide⟩
  · unfold parse_and_flatten
    rw [h]
  · rw [List.length_flatten, List.map_map]
    apply congrArg
    apply List.map_congr_left
    intro v _
    exact splitChar_length '|' v
  · intro v _
    exact splitChar_length '|' v
  · intro v _ hv
    exact splitChar_of_count_zero '|' v hv

/-- C3, witness: a two-record table whose `domain_registrar_ip` column
holds one two-valued cell and one single-valued cell flattens to three
tokens, matching the sum of per-record `1 + pipe-count`. -/
theorem c3_witness :
    colVals
      [mkRow [chars "a.com", chars "1.2.3.4", chars "regA",
              chars "5.6.7.8|9.9.9.9", chars "m", chars "u"],
       mkRow [chars "b.com", chars "1.2.3.4", chars "regB",
              chars "5.6.7.8", chars "m", chars "u"]]
      FieldName.domain_registrar_ip =
      some [chars "5.6.7.8|9.9.9.9", chars "5.6.7.8"] ∧
    (∃ out, parse_and_flatten
      [mkRow [chars "a.com", chars "1.2.3.4", chars "regA",
              chars "5.6.7.8|9.9.9.9", chars "m", chars "u"],
       mkRow [chars "b.com", chars "1.2.3.4", chars "regB",
              chars "5.6.7.8", chars "m", chars "u"]]
      FieldName.domain_registrar_ip = .ok out ∧
      out.length = ([chars "5.6.7.8|9.9.9.9", chars "5.6.7.8"].map
        fun v => v.count '|' + 1).sum ∧
      (∀ v ∈ [chars "5.6.7.8|9.9.9.9", chars "5.6.7.8"],
        (splitChar '|' v).length = v.count '|' + 1) ∧
      (∀ v ∈ [chars "5.6.7.8|9.9.9.9", chars "5.6.7.8"],
        v.count '|' = 0 → splitChar '|' v = [v]) ∧
      splitChar '|' strEmpty = [strEmpty]) :=
  ⟨by decide, parse_and_flatten_length _ FieldName.domain_registrar_ip _ (by decide)⟩

/-- C4: the `clean_data` descriptor extraction maps the value
`"Master Indicator Feed for zeus non-sinkholed domains"` to `"zeus"`;
on any value the pattern does not match it yields the zero sentinel that
`fillna(0)` places, and its result is always one of those two outcomes
(never an error). -/
theorem clean_data_malware_extraction :
    cleanMalwareCell
      (some (chars "Master Indicator Feed for zeus non-sinkholed domains")) =
      .fam (chars "zeus") ∧
    (∀ v, extractMalware v = none → cleanMalwareCell (some v) = .zero) ∧
    cleanMalwareCell (some (chars "completely unrelated 123")) = .zero ∧
    (∀ cell, cleanMalwareCell cell = .zero ∨
      ∃ run s, cleanMalwareCell cell = .fam run ∧ cell = some s ∧
        extractMalware s = some run) := by
  refine ⟨by decide, fun v hv => ?_, by decide, fun cell => ?_⟩
  · simp [cleanMalwareCell, hv]
  · cases cell with
    | none => left; rfl
    | some s =>
      cases he : extractMalware s with
      | none => left; simp [cleanMalwareCell, he]
      | some run =>
        right
        exact ⟨run, s, by simp [cleanMalwareCell, he], rfl, he⟩

/-- C4, witness: a value the pattern does not match is sent to the zero
sentinel, not an error. -/
theorem c4_witness :
    extractMalware (chars "no family named here") = none ∧
    cleanMalwareCell (some (chars "no family named here")) = .zero :=
  ⟨by decide,
   clean_data_malware_extraction.2.1 (chars "no family named here") (by decide)⟩

/-- C5: when the configured header line exists, `get_date` and
`get_timestamp` return the `re.findall` result whose head is the first
(leftmost) match of their pattern in that line, the empty list being the
absent sentinel exactly when no position of the line matches; neither
throws when the line lacks a date or time. -/
theorem get_date_timestamp_first_match (logs_feed : List Str) (loc : Nat)
    (line : Str) (hline : logs_feed.get? loc = some line) :
    (∃ ds, get_date logs_feed loc = .ok ds ∧
      (ds = [] ↔ ∀ i, matchDate (line.drop i) = none) ∧
      (∀ i t r, (∀ j, j < i → matchDate (line.drop j) = none) →
        matchDate (line.drop i) = some (t, r) → ds.head? = some t)) ∧
    (∃ ts, get_timestamp logs_feed loc = .ok ts ∧
      (ts = [] ↔ ∀ i, matchTime (line.drop i) = none) ∧
      (∀ i t r, (∀ j, j < i → matchTime (line.drop j) = none) →
        matchTime (line.drop i) = some (t, r) → ts.head? = some t)) := by
  constructor
  · refine ⟨reFindAll matchDate (fun h => matchDate_lt h) line, ?_, ?_, ?_⟩
    · unfold get_date
      rw [hline]
    · exact reFindAll_eq_nil_iff line.length line le_rfl
    · intro i t r hbelow hmatch
      exact reFindAll_head line.length line le_rfl i t r hbelow hmatch
  · refine ⟨reFindAll matchTime (fun h => matchTime_lt h) line, ?_, ?_, ?_⟩
    · unfold get_timestamp
      rw [hline]
    · exact reFindAll_eq_nil_iff line.length line le_rfl
    · intro i t r hbelow hmatch
      exact reFindAll_head line.length line le_rfl i t r hbelow hmatch

/-- C5, witness: instantiated at a feed whose header line index 1
exists. -/
theorem c5_witness :
    [chars "#", chars "updated 2018-12-26 14:30"].get? 1 =
      some (chars "updated 2018-12-26 14:30") ∧
    ((∃ ds, get_date [chars "#", chars "updated 2018-12-26 14:30"] 1 = .ok ds ∧
      (ds = [] ↔ ∀ i, matchDate ((chars "updated 2018-12-26 14:30").drop i) = none) ∧
      (∀ i t r,
        (∀ j, j < i → matchDate ((chars "updated 2018-12-26 14:30").drop j) = none) →
        matchDate ((chars "updated 2018-12-26 14:30").drop i) = some (t, r) →
        ds.head? = some t)) ∧
    (∃ ts, get_timestamp [chars "#", chars "updated 2018-12-26 14:30"] 1 = .ok ts ∧
      (ts = [] ↔ ∀ i, matchTime ((chars "updated 2018-12-26 14:30").drop i) = none) ∧
      (∀ i t r,
        (∀ j, j < i → matchTime ((chars "updated 2018-12-26 14:30").drop j) = none) →
        matchTime ((chars "updated 2018-12-26 14:30").drop i) = some (t, r) →
        ts.head? = some t))) :=
  ⟨by decide,
   get_date_timestamp_first_match [chars "#", chars "updated 2018-12-26 14:30"] 1
     (chars "updated 2018-12-26 14:30") (by decide)⟩

/-- C6: threshold monotonicity — every key of the summary at the larger
threshold `T2` is also a key of the summary at the smaller threshold
`T1`. -/
theorem summarize_threshold_mono (lst : List Str) (T1 T2 : Int) (h : T1 < T2)
    (k : Str) (c : Nat) (hk : (k, c) ∈ summarize lst T2) :
    ∃ c1, (k, c1) ∈ summarize lst T1 := by
  obtain ⟨hmem, hT, hc⟩ := mem_summarize.mp hk
  exact ⟨lst.count k, mem_summarize.mpr ⟨hmem, lt_trans h hT, rfl⟩⟩

/-- C6, witness: the key "a" of the threshold-1 summary of
`["a", "b", "a"]` is also a key of the threshold-0 summary. -/
theorem c6_witness :
    (0 : Int) < 1 ∧
    (chars "a", 2) ∈ summarize [chars "a", chars "b", chars "a"] 1 ∧
    (∃ c1, (chars "a", c1) ∈ summarize [chars "a", chars "b", chars "a"] 0) :=
  ⟨by decide, by decide,
   summarize_threshold_mono [chars "a", chars "b", chars "a"] 0 1 (by decide)
     (chars "a") 2 (by decide)⟩

/-- C7, counterexample: the line `"x,y"` splits into 2 ≠ 6 parts, yet,
mixed with a 6-part line, `create_data_frame` succeeds and silently pads
that record with NaN cells instead of raising a malformed-record
error. -/
theorem c7_counterexample :
    create_data_frame [chars "a,b,c,d,e,f", chars "x,y", strEmpty] 0 =
      .ok [mkRow [chars "a", chars "b", chars "c", chars "d", chars "e", chars "f"],
           mkRow [chars "x", chars "y"]] ∧
    (mkRow [chars "x", chars "y"]).domain_registrar = none := by
  decide

/-- C7 (amended): each data line is split on commas without limit and
mapped positionally onto the six schema columns; `create_data_frame`
raises `ValueError` exactly when some lines remain and the maximum
split arity over all lines differs from 6, while a line splitting into
fewer parts than 6 (when the maximum is 6) is silently padded with NaN
cells rather than rejected. -/
theorem create_data_frame_arity (feed : List Str) (d : Nat) (rest : List Str)
    (h : pyRemove strEmpty (feed.drop d) = some rest) :
    (create_data_frame feed d = .error .valueError ↔
      rest ≠ [] ∧ maxArity (rest.map (splitChar ',')) ≠ 6) ∧
    (∀ out, create_data_frame feed d = .ok out →
      out.length = rest.length ∧
      ∀ j (hj : j < out.length) (hj' : j < rest.length),
        out.get ⟨j, hj⟩ = mkRow (splitChar ',' (rest.get ⟨j, hj'⟩))) := by
  have hcdf : create_data_frame feed d =
      (if (rest.map (splitChar ',')).isEmpty then Except.ok []
       else if maxArity (rest.map (splitChar ',')) = 6
       then Except.ok ((rest.map (splitChar ',')).map mkRow)
       else Except.error PyError.valueError) := by
    unfold create_data_frame
    rw [h]
  rw [hcdf]
  cases hrest : rest with
  | nil =>
    simp only [List.map_nil, List.isEmpty_nil, if_true]
    constructor
    · constructor
      · intro habs
        cases habs
      · rintro ⟨habs, -⟩
        exact absurd rfl habs
    · intro out hout
      have : out = ([] : List Row) := (Except.ok.inj hout).symm
      subst this
      exact ⟨rfl, fun j hj hj' => absurd hj (by simp)⟩
  | cons r0 rs =>
    rw [← hrest]
    have hne : rest ≠ [] := by
      rw [hrest]
      simp
    have hmapne : (rest.map (splitChar ',')).isEmpty = false := by
      rw [hrest]
      simp
    rw [hmapne]
    simp only [Bool.false_eq_true, if_false]
    by_cases h6 : maxArity (rest.map (splitChar ',')) = 6
    · rw [if_pos h6]
      constructor
      · constructor
        · intro habs
          cases habs
        · rintro ⟨-, habs⟩
          exact absurd h6 habs
      · intro out hout
        have hout' : out = (rest.map (splitChar ',')).map mkRow :=
          (Except.ok.inj hout).symm
        subst hout'
        refine ⟨by simp, fun j hj hj' => ?_⟩
        simp [List.get_eq_getElem, List.getElem_map]
    · rw [if_neg h6]
      constructor
      · exact iff_of_true rfl ⟨hne, h6⟩
      · intro out hout
        cases hout

/-- C7, witness for the amended theorem: a feed whose single data line
splits into six parts is parsed into one positional record. -/
theorem c7_witness :
    pyRemove strEmpty [chars "a,b,c,d,e,f", strEmpty] = some [chars "a,b,c,d,e,f"] ∧
    ((create_data_frame [chars "a,b,c,d,e,f", strEmpty] 0 = .error .valueError ↔
      [chars "a,b,c,d,e,f"] ≠ [] ∧
      maxArity ([chars "a,b,c,d,e,f"].map (splitChar ',')) ≠ 6) ∧
    (∀ out, create_data_frame [chars "a,b,c,d,e,f", strEmpty] 0 = .ok out →
      out.length = [chars "a,b,c,d,e,f"].length ∧
      ∀ j (hj : j < out.length) (hj' : j < [chars "a,b,c,d,e,f"].length),
        out.get ⟨j, hj⟩ =
          mkRow (splitChar ',' ([chars "a,b,c,d,e,f"].get ⟨j, hj'⟩)))) :=
  ⟨by decide,
   create_data_frame_arity [chars "a,b,c,d,e,f", strEmpty] 0
     [chars "a,b,c,d,e,f"] (by decide)⟩

/-- C8, counterexample: with header size 5 on a 3-line feed,
`create_data_frame` does not produce an empty result — the
the `remove` of the empty string on the empty slice raises `ValueError`. -/
theorem c8_counterexample :
    create_data_frame [chars "a", chars "b", chars "c"] 5 =
      .error .valueError := by
  decide

/-- C8 (amended): when the header size exceeds the number of feed lines,
the slice `logs_feed[H:]` itself is empty with no out-of-range failure,
but `create_data_frame` then fails with `ValueError` because
the `remove` of the empty string finds no empty string in the empty slice. -/
theorem create_data_frame_header_overrun (feed : List Str) (H : Nat)
    (h : feed.length < H) :
    feed.drop H = [] ∧ create_data_frame feed H = .error .valueError := by
  have hdrop : feed.drop H = [] := List.drop_eq_nil_of_le (le_of_lt h)
  refine ⟨hdrop, ?_⟩
  unfold create_data_frame
  rw [hdrop]
  rfl

/-- C8, witness: a 3-line feed with header size 5. -/
theorem c8_witness :
    [chars "a", chars "b", chars "c"].length < 5 ∧
    ([chars "a", chars "b", chars "c"].drop 5 = [] ∧
      create_data_frame [chars "a", chars "b", chars "c"] 5 =
        .error .valueError) :=
  ⟨by decide, create_data_frame_header_overrun [chars "a", chars "b", chars "c"] 5
    (by decide)⟩

/-- C9, counterexample: a feed whose only data line after header removal
is empty makes `create_data_frame` succeed with an empty table — there
is no `EmptyFeedError` in the code and no failure at this stage. -/
theorem c9_counterexample :
    create_data_frame [chars "# header", strEmpty] 1 = .ok [] := by
  decide

/-- C9 (amended): when the data region is exactly one empty line,
`create_data_frame` succeeds and returns the empty record table; no
dedicated `EmptyFeedError` exists — the run only fails later, in
`clean_data`, with the generic `AttributeError` an empty frame
produces. -/
theorem create_data_frame_empty_feed (feed : List Str) (H : Nat)
    (h : feed.drop H = [strEmpty]) :
    create_data_frame feed H = .ok [] ∧
    clean_data [] = .error .attributeError := by
  refine ⟨?_, rfl⟩
  unfold create_data_frame
  rw [h]
  rfl

/-- C9, witness: a one-header feed terminated by the empty line. -/
theorem c9_witness :
    [chars "# header", strEmpty].drop 1 = [strEmpty] ∧
    (create_data_frame [chars "# header", strEmpty] 1 = .ok [] ∧
      clean_data [] = .error .attributeError) :=
  ⟨by decide, create_data_frame_empty_feed [chars "# header", strEmpty] 1 (by decide)⟩

/-- C10: on every nonempty parsed table whose `domain_registrar_ip`
cells are all strings, `clean_data` succeeds, keeps the record count and
order, leaves the `domain`, `domain_ip`, `domain_registrar`,
`domain_registrar_ip` and `url_feed` cells of every record unchanged,
replaces only the `malware` cell by the pattern extraction, and appends
for each record exactly the pipe-split parts of its original
`domain_registrar_ip` value as the `domain_registrar_ip_<i>`
expansion columns. -/
theorem clean_data_frame_effect (df : List Row) (vals : List Str)
    (hne : df ≠ []) (h : colVals df FieldName.domain_registrar_ip = some vals) :
    ∃ out, clean_data df = .ok out ∧ out.length = df.length ∧
      ∀ j (hj : j < out.length) (hj' : j < df.length),
        (out.get ⟨j, hj⟩).domain = (df.get ⟨j, hj'⟩).domain ∧
        (out.get ⟨j, hj⟩).domain_ip = (df.get ⟨j, hj'⟩).domain_ip ∧
        (out.get ⟨j, hj⟩).domain_registrar = (df.get ⟨j, hj'⟩).domain_registrar ∧
        (out.get ⟨j, hj⟩).domain_registrar_ip =
          (df.get ⟨j, hj'⟩).domain_registrar_ip ∧
        (out.get ⟨j, hj⟩).url_feed = (df.get ⟨j, hj'⟩).url_feed ∧
        (out.get ⟨j, hj⟩).malware = cleanMalwareCell (df.get ⟨j, hj'⟩).malware ∧
        Option.map (splitChar '|') ((df.get ⟨j, hj'⟩).domain_registrar_ip) =
          some (out.get ⟨j, hj⟩).regIpParts := by
  have hlen := colVals_length h
  have hemp : df.isEmpty = false := by
    cases df with
    | nil => exact absurd rfl hne
    | cons r rs => rfl
  refine ⟨List.zipWith (fun r v =>
      ({ domain := r.domain
         domain_ip := r.domain_ip
         domain_registrar := r.domain_registrar
         domain_registrar_ip := r.domain_registrar_ip
         malware := cleanMalwareCell r.malware
         url_feed := r.url_feed
         regIpParts := splitChar '|' v } : CleanRow)) df vals, ?_, ?_, ?_⟩
  · unfold clean_data
    rw [hemp]
    simp only [Bool.false_eq_true, if_false]
    rw [h]
  · simp [List.length_zipWith, hlen]
  · intro j hj hj'
    have hjv : j < vals.length := by
      rw [hlen]
      exact hj'
    have hcell := colVals_get h j hj' hjv
    have hget : (List.zipWith (fun r v =>
        ({ domain := r.domain
           domain_ip := r.domain_ip
           domain_registrar := r.domain_registrar
           domain_registrar_ip := r.domain_registrar_ip
           malware := cleanMalwareCell r.malware
           url_feed := r.url_feed
           regIpParts := splitChar '|' v } : CleanRow)) df vals).get ⟨j, hj⟩ =
        { domain := (df.get ⟨j, hj'⟩).domain
          domain_ip := (df.get ⟨j, hj'⟩).domain_ip
          domain_registrar := (df.get ⟨j, hj'⟩).domain_registrar
          domain_registrar_ip := (df.get ⟨j, hj'⟩).domain_registrar_ip
          malware := cleanMalwareCell (df.get ⟨j, hj'⟩).malware
          url_feed := (df.get ⟨j, hj'⟩).url_feed
          regIpParts := splitChar '|' (vals.get ⟨j, hjv⟩) } := by
      simp [List.get_eq_getElem, List.getElem_zipWith]
    rw [hget]
    refine ⟨rfl, rfl, rfl, rfl, rfl, rfl, ?_⟩
    have hcol : (df.get ⟨j, hj'⟩).domain_registrar_ip =
        some (vals.get ⟨j, hjv⟩) := hcell
    rw [hcol]
    rfl

/-- C10, witness: a one-record table with a two-valued registrar-IP
cell. -/
theorem c10_witness :
    [mkRow [chars "a.com", chars "1.2.3.4", chars "regA",
            chars "5.6.7.8|9.9.9.9", chars "m", chars "u"]] ≠ [] ∧
    colVals [mkRow [chars "a.com", chars "1.2.3.4", chars "regA",
            chars "5.6.7.8|9.9.9.9", chars "m", chars "u"]]
      FieldName.domain_registrar_ip = some [chars "5.6.7.8|9.9.9.9"] ∧
    (∃ out, clean_data [mkRow [chars "a.com", chars "1.2.3.4", chars "regA",
            chars "5.6.7.8|9.9.9.9", chars "m", chars "u"]] = .ok out ∧
      out.length = [mkRow [chars "a.com", chars "1.2.3.4", chars "regA",
            chars "5.6.7.8|9.9.9.9", chars "m", chars "u"]].length ∧
      ∀ j (hj : j < out.length)
        (hj' : j < [mkRow [chars "a.com", chars "1.2.3.4", chars "regA",
            chars "5.6.7.8|9.9.9.9", chars "m", chars "u"]].length),
        (out.get ⟨j, hj⟩).domain =
          ([mkRow [chars "a.com", chars "1.2.3.4", chars "regA",
            chars "5.6.7.8|9.9.9.9", chars "m", chars "u"]].get ⟨j, hj'⟩).domain ∧
        (out.get ⟨j, hj⟩).domain_ip =
          ([mkRow [chars "a.com", chars "1.2.3.4", chars "regA",
            chars "5.6.7.8|9.9.9.9", chars "m", chars "u"]].get ⟨j, hj'⟩).domain_ip ∧
        (out.get ⟨j, hj⟩).domain_registrar =
          ([mkRow [chars "a.com", chars "1.2.3.4", chars "regA",
            chars "5.6.7.8|9.9.9.9", chars "m", chars "u"]].get
              ⟨j, hj'⟩).domain_registrar ∧
        (out.get ⟨j, hj⟩).domain_registrar_ip =
          ([mkRow [chars "a.com", chars "1.2.3.4", chars "regA",
            chars "5.6.7.8|9.9.9.9", chars "m", chars "u"]].get
              ⟨j, hj'⟩).domain_registrar_ip ∧
        (out.get ⟨j, hj⟩).url_feed =
          ([mkRow [chars "a.com", chars "1.2.3.4", chars "regA",
            chars "5.6.7.8|9.9.9.9", chars "m", chars "u"]].get ⟨j, hj'⟩).url_feed ∧
        (out.get ⟨j, hj⟩).malware =
          cleanMalwareCell ([mkRow [chars "a.com", chars "1.2.3.4", chars "regA",
            chars "5.6.7.8|9.9.9.9", chars "m", chars "u"]].get ⟨j, hj'⟩).malware ∧
        Option.map (splitChar '|')
            (([mkRow [chars "a.com", chars "1.2.3.4", chars "regA",
              chars "5.6.7.8|9.9.9.9", chars "m", chars "u"]].get
                ⟨j, hj'⟩).domain_registrar_ip) =
          some (out.get ⟨j, hj⟩).regIpParts) :=
  ⟨by decide, by decide,
   clean_data_frame_effect
     [mkRow [chars "a.com", chars "1.2.3.4", chars "regA",
             chars "5.6.7.8|9.9.9.9", chars "m", chars "u"]]
     [chars "5.6.7.8|9.9.9.9"] (by decide) (by decide)⟩
